import Mathlib

set_option maxHeartbeats 1600000

namespace Spec2Proof

/-!
Shallow embedding of the entity-resolution and knowledge-grounded
context-assembly subsystem:

* `src/modules/knowledge_graph_query.py` (KnowledgeGraphQuery)
* `src/modules/intent_recognition.py` (IntentRecognizer postprocessing)
* `src/modules/kg_llm_enhancer.py` (KGContextBuilder, KGLLMEnhancer)

Machine integers are modelled as Nat/Int, Python floats that only ever hold
small sums as Rat, timestamps as Int, Python dicts as insertion-ordered
association lists, and fallible calls as Option.
-/

/-! ### Shared utilities -/

/-- Python str.strip applied to a character list: whitespace removed from both
ends (whitespace modelled by Char.isWhitespace). -/
def pyStrip (l : List Char) : List Char :=
  ((l.dropWhile Char.isWhitespace).reverse.dropWhile Char.isWhitespace).reverse

/-- Python str.strip on strings. -/
def pyStripS (s : String) : String :=
  String.mk (pyStrip s.data)

/-- The apostrophe character, written by code to avoid a bare quote. -/
def apostC : Char := Char.ofNat 39

/-- The double-quote character. -/
def quoteC : Char := Char.ofNat 34

/-- Wrap a string in single quotes, as the Cypher f-strings do. -/
def quoted (s : String) : String :=
  String.mk (apostC :: (s.data ++ [apostC]))

/-- Lookup in an insertion-ordered association list (Python dict read). -/
def alookup {β : Type} (k : String) : List (String × β) → Option β
  | [] => none
  | kv :: t => if kv.1 = k then some kv.2 else alookup k t

/-- Python dict write: replace in place if the key exists, else append. -/
def aput {β : Type} (k : String) (v : β) : List (String × β) → List (String × β)
  | [] => [(k, v)]
  | kv :: t => if kv.1 = k then (k, v) :: t else kv :: aput k v t

/-- Python del dict entry for a key. -/
def aerase {β : Type} (k : String) : List (String × β) → List (String × β)
  | [] => []
  | kv :: t => if kv.1 = k then t else kv :: aerase k t

/-! ### Knowledge Store Client — src/modules/knowledge_graph_query.py -/

/-- MAX_ENTITY_LENGTH constant of KnowledgeGraphQuery. -/
def MAX_ENTITY_LENGTH : Nat := 100

/-- MAX_ENTITIES_PER_QUERY constant of KnowledgeGraphQuery. -/
def MAX_ENTITIES_PER_QUERY : Nat := 50

/-- QUERY_RESULT_LIMIT constant of KnowledgeGraphQuery. -/
def QUERY_RESULT_LIMIT : Nat := 1000

/-- The character class kept by the regex sub in _sanitize_entity_name:
word characters (Python backslash-w, modelled as ASCII alphanumerics plus
underscore; the wider Unicode word class of Python would only keep more
letters and never a quote or semicolon), CJK ideographs U+4E00..U+9FFF,
whitespace, hyphen and underscore. -/
def allowedChar (c : Char) : Bool :=
  (c.isAlphanum || c == '_') ||
    (0x4e00 ≤ c.toNat && c.toNat ≤ 0x9fff) ||
    c.isWhitespace || c == '-'

/-- KnowledgeGraphQuery._sanitize_entity_name: remove characters outside the
allowed class, truncate to MAX_ENTITY_LENGTH, then strip. -/
def sanitizeEntityName (s : String) : String :=
  pyStripS (String.mk ((s.data.filter allowedChar).take MAX_ENTITY_LENGTH))

/-- KnowledgeGraphQuery._validate_entities: first MAX_ENTITIES_PER_QUERY
entries, sanitized, dropping those that sanitize to empty. -/
def validateEntities (entities : List String) : List String :=
  (entities.take MAX_ENTITIES_PER_QUERY).filterMap (fun e =>
    let s := sanitizeEntityName e
    if s = "" then none else some s)

/-- One record returned by graph.run(...).data(): the fifteen aliased columns
of the three Cypher queries.  A column is some s when the store returned a
string and none when it returned null / was absent. -/
structure QRecord where
  entity1 : Option String
  entity2 : Option String
  relation : Option String
  entity1Type : Option String
  entity1Description : Option String
  entity1Properties : Option String
  entity1TimeComplexity : Option String
  entity1SpaceComplexity : Option String
  entity1CommonOperations : Option String
  entity2Type : Option String
  entity2Description : Option String
  entity2Properties : Option String
  entity2TimeComplexity : Option String
  entity2SpaceComplexity : Option String
  entity2CommonOperations : Option String
deriving DecidableEq

/-- The query cache: key to (result, storedAt) with Int timestamps. -/
abbrev QCache := List (String × (List QRecord × Int))

/-- The underlying graph store: a query string evaluates to records, or to
none when graph.run raises. -/
abbrev Store := String → Option (List QRecord)

/-- KnowledgeGraphQuery._get_cached_result: return a hit younger than the
TTL; delete the entry (lazy eviction) when it is stale. -/
def getCachedResult (ttl now : Int) (key : String) (c : QCache) :
    Option (List QRecord) × QCache :=
  match alookup key c with
  | some rv => if now - rv.2 < ttl then (some rv.1, c) else (none, aerase key c)
  | none => (none, c)

/-- KnowledgeGraphQuery._cache_result: insert under the key, then evict every
entry whose age has reached the TTL (same critical section as the insert). -/
def cacheResult (ttl now : Int) (key : String) (res : List QRecord) (c : QCache) :
    QCache :=
  (aput key (res, now) c).filter (fun kv => now - kv.2.2 < ttl)

/-- KnowledgeGraphQuery._execute_query_with_cache.  The Bool records whether
the underlying store was queried. -/
def executeQueryWithCache (ttl now : Int) (st : Store) (query : String)
    (cacheKey : Option String) (c : QCache) : List QRecord × QCache × Bool :=
  match cacheKey with
  | some k =>
    match getCachedResult ttl now k c with
    | (some r, c1) => (r, c1, false)
    | (none, c1) =>
      match st query with
      | some res => (res, cacheResult ttl now k res c1, true)
      | none => ([], c1, true)
  | none =>
    match st query with
    | some res => (res, c, true)
    | none => ([], c, true)

/-- Append an attribute when the record column is truthy (a non-empty
string), as _format_entity_attributes does per key. -/
def addAttr (acc : List (String × String)) (k : String) (v : Option String) :
    List (String × String) :=
  match v with
  | some s => if s = "" then acc else acc ++ [(k, s)]
  | none => acc

/-- _format_entity_attributes for the entity1 columns, in source order. -/
def formatEntity1Attributes (r : QRecord) : List (String × String) :=
  addAttr (addAttr (addAttr (addAttr (addAttr (addAttr []
    "type" r.entity1Type)
    "description" r.entity1Description)
    "properties" r.entity1Properties)
    "time_complexity" r.entity1TimeComplexity)
    "space_complexity" r.entity1SpaceComplexity)
    "common_operations" r.entity1CommonOperations

/-- _format_entity_attributes for the entity2 columns, in source order. -/
def formatEntity2Attributes (r : QRecord) : List (String × String) :=
  addAttr (addAttr (addAttr (addAttr (addAttr (addAttr []
    "type" r.entity2Type)
    "description" r.entity2Description)
    "properties" r.entity2Properties)
    "time_complexity" r.entity2TimeComplexity)
    "space_complexity" r.entity2SpaceComplexity)
    "common_operations" r.entity2CommonOperations

/-- The formatted result items built by the three query operations. -/
structure RelationFact where
  entity1 : String
  entity1Attributes : List (String × String)
  entity2 : String
  entity2Attributes : List (String × String)
  relation : String
deriving DecidableEq

/-- The per-record formatting step shared by the three operations: keep the
record only when entity1 and entity2 are truthy (non-empty strings); a
missing relation column falls back to the operation default. -/
def formatRecord (defaultRelation : String) (r : QRecord) : Option RelationFact :=
  match r.entity1, r.entity2 with
  | some e1, some e2 =>
    if e1 = "" ∨ e2 = "" then none
    else some ⟨e1, formatEntity1Attributes r, e2, formatEntity2Attributes r,
      r.relation.getD defaultRelation⟩
  | _, _ => none

/-- The Cypher text of find_entity_relations, condensed to one line (the
store is an abstract function of this string, so layout is immaterial). -/
def ferQuery (sanitized : String) (limit : Nat) : String :=
  "MATCH (n)-[r]-(m) WHERE n.name CONTAINS " ++ quoted sanitized ++
    " RETURN n.name as entity1, type(r) as relation, m.name as entity2, attribute columns LIMIT " ++
    toString (min limit QUERY_RESULT_LIMIT)

/-- KnowledgeGraphQuery.find_entity_relations.  The Bool of the result is
true when the underlying store was queried. -/
def findEntityRelations (ttl now : Int) (st : Store) (entityName : String)
    (limit : Nat) (c : QCache) : List RelationFact × QCache × Bool :=
  let sanitized := sanitizeEntityName entityName
  if sanitized = "" then ([], c, false)
  else
    let key := "find_entity_relations:" ++ sanitized ++ "|" ++ toString limit
    let out := executeQueryWithCache ttl now st (ferQuery sanitized limit) (some key) c
    (out.1.filterMap (formatRecord "未知关系"), out.2.1, out.2.2)

/-- Python str of a tuple of strings, used in the cache key of
find_entities_by_relation. -/
def renderTuple (l : List String) : String :=
  match l with
  | [a] => "(" ++ quoted a ++ ",)"
  | _ => "(" ++ String.intercalate ", " (l.map quoted) ++ ")"

/-- The Cypher text of find_entities_by_relation, condensed to one line. -/
def febrQuery (validated : List String) (sanitizedRelation : String) : String :=
  "MATCH (n)-[r]->(m) WHERE (" ++
    String.intercalate " OR " (validated.map (fun e => "n.name CONTAINS " ++ quoted e)) ++
    ") AND type(r) CONTAINS " ++ quoted sanitizedRelation ++
    " RETURN columns LIMIT " ++ toString QUERY_RESULT_LIMIT

/-- KnowledgeGraphQuery.find_entities_by_relation. -/
def findEntitiesByRelation (ttl now : Int) (st : Store) (entities : List String)
    (relation : String) (confidenceThreshold : ℚ) (c : QCache) :
    List RelationFact × QCache × Bool :=
  let validated := validateEntities entities
  if validated = [] ∨ relation = "" then ([], c, false)
  else
    let sanitizedRelation := sanitizeEntityName relation
    if sanitizedRelation = "" then ([], c, false)
    else
      let key := "find_entities_by_relation:" ++ renderTuple validated ++ "|" ++
        sanitizedRelation ++ "|" ++ toString confidenceThreshold
      let out := executeQueryWithCache ttl now st (febrQuery validated sanitizedRelation)
        (some key) c
      (out.1.filterMap (formatRecord sanitizedRelation), out.2.1, out.2.2)

/-- The Cypher text of find_relation_by_entities, condensed to one line. -/
def frbeQuery (e1 e2 : String) (bidirectional : Bool) : String :=
  if bidirectional then
    "MATCH (n1)-[r]-(n2) WHERE (n1.name CONTAINS " ++ quoted e1 ++
      " AND n2.name CONTAINS " ++ quoted e2 ++ ") OR (n1.name CONTAINS " ++ quoted e2 ++
      " AND n2.name CONTAINS " ++ quoted e1 ++ ") RETURN columns LIMIT " ++
      toString QUERY_RESULT_LIMIT
  else
    "MATCH (n1)-[r]->(n2) WHERE n1.name CONTAINS " ++ quoted e1 ++
      " AND n2.name CONTAINS " ++ quoted e2 ++ " RETURN columns LIMIT " ++
      toString QUERY_RESULT_LIMIT

/-- KnowledgeGraphQuery.find_relation_by_entities (include_indirect is unused
by the source body and omitted). -/
def findRelationByEntities (ttl now : Int) (st : Store) (entities : List String)
    (confidenceThreshold : ℚ) (bidirectional : Bool) (c : QCache) :
    List RelationFact × QCache × Bool :=
  match validateEntities entities with
  | e1 :: e2 :: _ =>
    let key := "find_relation_by_entities:" ++ e1 ++ "|" ++ e2 ++ "|" ++
      toString confidenceThreshold ++ "|" ++ (if bidirectional then "True" else "False")
    let out := executeQueryWithCache ttl now st (frbeQuery e1 e2 bidirectional)
      (some key) c
    (out.1.filterMap (formatRecord "未知关系"), out.2.1, out.2.2)
  | _ => ([], c, false)

/-! ### Lemmas about the sanitizer -/

theorem pyStrip_sublist (l : List Char) : (pyStrip l).Sublist l := by
  have h1 : (l.dropWhile Char.isWhitespace).Sublist l := List.dropWhile_sublist _
  have h2 : ((l.dropWhile Char.isWhitespace).reverse.dropWhile Char.isWhitespace).Sublist
      (l.dropWhile Char.isWhitespace).reverse := List.dropWhile_sublist _
  have h3 := h2.reverse
  rw [List.reverse_reverse] at h3
  exact h3.trans h1

theorem mem_sanitize_allowed {c : Char} {s : String} :
    c ∈ (sanitizeEntityName s).data → allowedChar c = true := by
  intro h
  unfold sanitizeEntityName pyStripS at h
  have h1 : c ∈ (s.data.filter allowedChar).take MAX_ENTITY_LENGTH :=
    (pyStrip_sublist _).subset h
  have h2 : c ∈ s.data.filter allowedChar := List.take_subset _ _ h1
  exact (List.mem_filter.mp h2).2

theorem sanitize_length_le (s : String) :
    (sanitizeEntityName s).length ≤ MAX_ENTITY_LENGTH := by
  unfold sanitizeEntityName pyStripS
  have h1 := (pyStrip_sublist ((s.data.filter allowedChar).take MAX_ENTITY_LENGTH)).length_le
  have h2 : ((s.data.filter allowedChar).take MAX_ENTITY_LENGTH).length ≤ MAX_ENTITY_LENGTH := by
    rw [List.length_take]
    exact min_le_left _ _
  calc (String.mk (pyStrip ((s.data.filter allowedChar).take MAX_ENTITY_LENGTH))).length
      = (pyStrip ((s.data.filter allowedChar).take MAX_ENTITY_LENGTH)).length := rfl
    _ ≤ _ := le_trans h1 h2

/-- C6: the sanitized entity/relation name used in store queries contains
only characters of the allowed class (word characters, CJK ideographs,
whitespace, hyphen, underscore) — in particular no double quote, single
quote or semicolon — its length is at most 100, and an empty sanitized name
makes find_entity_relations return an empty result without touching the
store and without an error. -/
theorem c6_sanitization (s : String) :
    (∀ c ∈ (sanitizeEntityName s).data, allowedChar c = true) ∧
    (∀ c ∈ (sanitizeEntityName s).data, c ≠ quoteC ∧ c ≠ apostC ∧ c ≠ ';') ∧
    (sanitizeEntityName s).length ≤ 100 ∧
    (∀ ttl now st limit c, sanitizeEntityName s = "" →
      findEntityRelations ttl now st s limit c = ([], c, false)) := by
  refine ⟨fun c hc => mem_sanitize_allowed hc, fun c hc => ?_, sanitize_length_le s, ?_⟩
  · have hall := mem_sanitize_allowed hc
    refine ⟨?_, ?_, ?_⟩ <;> intro he <;> rw [he] at hall <;> revert hall <;> decide
  · intro ttl now st limit c h
    simp [findEntityRelations, h]

/-- C6 witness: a concrete string of a quote and a semicolon sanitizes to
empty and the query operation returns the empty result. -/
theorem c6_sanitization_witness :
    findEntityRelations 600 0 (fun _ => some []) (String.mk [apostC, ';']) 50 [] =
      ([], [], false) :=
  (c6_sanitization (String.mk [apostC, ';'])).2.2.2 600 0 (fun _ => some []) 50 []
    (by decide)

/-! ### Lemmas about the result formatting (C10) -/

theorem formatRecord_wellFormed {d : String} {r : QRecord} {f : RelationFact}
    (h : formatRecord d r = some f) :
    f.entity1 ≠ "" ∧ f.entity2 ≠ "" ∧ (r.relation = none → f.relation = d) := by
  cases he1 : r.entity1 with
  | none => simp [formatRecord, he1] at h
  | some e1 =>
    cases he2 : r.entity2 with
    | none => simp [formatRecord, he1, he2] at h
    | some e2 =>
      simp only [formatRecord, he1, he2] at h
      split at h
      · exact absurd h (by simp)
      · rename_i hz
        push_neg at hz
        simp only [Option.some.injEq] at h
        subst h
        exact ⟨hz.1, hz.2, fun hr => by simp [hr]⟩

theorem mem_filterMap_formatRecord {d : String} {l : List QRecord} {f : RelationFact}
    (h : f ∈ l.filterMap (formatRecord d)) :
    f.entity1 ≠ "" ∧ f.entity2 ≠ "" ∧
      ∃ r ∈ l, formatRecord d r = some f ∧ (r.relation = none → f.relation = d) := by
  obtain ⟨r, hr, hfr⟩ := List.mem_filterMap.mp h
  obtain ⟨h1, h2, h3⟩ := formatRecord_wellFormed hfr
  exact ⟨h1, h2, r, hr, hfr, h3⟩

/-- C10: every RelationFact returned by the three store-client query
operations has a non-empty entity1 and entity2, both attribute maps present
(total fields of the result structure), and a relation that falls back to
the operation default when the record has none; records failing the
truthiness checks are dropped by the filter. -/
theorem c10_result_invariant (ttl now : Int) (st : Store) (c : QCache) (f : RelationFact) :
    (∀ entities relation thr,
      f ∈ (findEntitiesByRelation ttl now st entities relation thr c).1 →
        f.entity1 ≠ "" ∧ f.entity2 ≠ "" ∧
          ∃ r, formatRecord (sanitizeEntityName relation) r = some f ∧
            (r.relation = none → f.relation = sanitizeEntityName relation)) ∧
    (∀ entities thr bidi,
      f ∈ (findRelationByEntities ttl now st entities thr bidi c).1 →
        f.entity1 ≠ "" ∧ f.entity2 ≠ "" ∧
          ∃ r, formatRecord "未知关系" r = some f ∧
            (r.relation = none → f.relation = "未知关系")) ∧
    (∀ entityName limit,
      f ∈ (findEntityRelations ttl now st entityName limit c).1 →
        f.entity1 ≠ "" ∧ f.entity2 ≠ "" ∧
          ∃ r, formatRecord "未知关系" r = some f ∧
            (r.relation = none → f.relation = "未知关系")) := by
  refine ⟨fun entities relation thr h => ?_, fun entities thr bidi h => ?_,
    fun entityName limit h => ?_⟩
  · simp only [findEntitiesByRelation] at h
    split at h
    · simp at h
    · split at h
      · simp at h
      · obtain ⟨h1, h2, r, _, hfr, h3⟩ := mem_filterMap_formatRecord h
        exact ⟨h1, h2, r, hfr, h3⟩
  · simp only [findRelationByEntities] at h
    split at h
    · obtain ⟨h1, h2, r, _, hfr, h3⟩ := mem_filterMap_formatRecord h
      exact ⟨h1, h2, r, hfr, h3⟩
    · simp at h
  · simp only [findEntityRelations] at h
    split at h
    · simp at h
    · obtain ⟨h1, h2, r, _, hfr, h3⟩ := mem_filterMap_formatRecord h
      exact ⟨h1, h2, r, hfr, h3⟩

/-- A concrete store record for witnesses: the fact 栈 syno LIFO. -/
def sampleRecord : QRecord :=
  ⟨some "栈", some "LIFO", some "syno",
    none, none, none, none, none, none, none, none, none, none, none, none⟩

/-- C10 witness: a concrete single-record store run through
find_entity_relations yields a fact with non-empty endpoints. -/
theorem c10_result_invariant_witness :
    (⟨"栈", [], "LIFO", [], "syno"⟩ : RelationFact).entity1 ≠ "" ∧
    (⟨"栈", [], "LIFO", [], "syno"⟩ : RelationFact).entity2 ≠ "" ∧
    ∃ r, formatRecord "未知关系" r = some ⟨"栈", [], "LIFO", [], "syno"⟩ ∧
      (r.relation = none → (⟨"栈", [], "LIFO", [], "syno"⟩ : RelationFact).relation = "未知关系") :=
  (c10_result_invariant 600 0 (fun _ => some [sampleRecord]) []
      ⟨"栈", [], "LIFO", [], "syno"⟩).2.2 "栈" 50 (by decide)

/-! ### Cache lemmas (C2) -/

theorem aput_nokey {β : Type} {k : String} {c : List (String × β)}
    (h : alookup k c = none) (v : β) : aput k v c = c ++ [(k, v)] := by
  induction c with
  | nil => rfl
  | cons kv t ih =>
    simp only [alookup] at h
    by_cases hk : kv.1 = k
    · rw [if_pos hk] at h; simp at h
    · rw [if_neg hk] at h
      simp only [aput, if_neg hk, List.cons_append]
      rw [ih h]

theorem nokey_filter {β : Type} {k : String} {c : List (String × β)}
    (p : String × β → Bool) (h : alookup k c = none) :
    alookup k (c.filter p) = none := by
  induction c with
  | nil => rfl
  | cons kv t ih =>
    simp only [alookup] at h
    by_cases hk : kv.1 = k
    · rw [if_pos hk] at h; simp at h
    · rw [if_neg hk] at h
      rw [List.filter_cons]
      cases p kv with
      | false => simpa using ih h
      | true => simpa [alookup, if_neg hk] using ih h

theorem alookup_append_self {β : Type} {k : String} {l : List (String × β)}
    (v : β) (h : alookup k l = none) : alookup k (l ++ [(k, v)]) = some v := by
  induction l with
  | nil => simp [alookup]
  | cons kv t ih =>
    simp only [alookup] at h
    by_cases hk : kv.1 = k
    · rw [if_pos hk] at h; simp at h
    · rw [if_neg hk] at h
      simpa only [List.cons_append, alookup, if_neg hk] using ih h

theorem aerase_append_nokey {β : Type} {k : String} {l : List (String × β)}
    (v : β) (h : alookup k l = none) : aerase k (l ++ [(k, v)]) = l := by
  induction l with
  | nil => simp [aerase]
  | cons kv t ih =>
    simp only [alookup] at h
    by_cases hk : kv.1 = k
    · rw [if_pos hk] at h; simp at h
    · rw [if_neg hk] at h
      simp only [List.cons_append, aerase, if_neg hk]
      exact congrArg (List.cons kv) (ih h)

theorem cacheResult_nokey {ttl now : Int} {k : String} {res : List QRecord}
    {c : QCache} (h : alookup k c = none) :
    cacheResult ttl now k res c =
      c.filter (fun kv => now - kv.2.2 < ttl) ++
        (if 0 < ttl then [(k, (res, now))] else []) := by
  unfold cacheResult
  rw [aput_nokey h, List.filter_append]
  congr 1
  by_cases hp : (0 : Int) < ttl
  · simp [List.filter_cons, sub_self, hp]
  · simp [List.filter_cons, sub_self, hp]

/-- C2: a cached result is never returned once stale (now − storedAt ≥ ttl);
a repeated identical find_entity_relations call within the TTL window
returns the cached value with no second store query and an unchanged cache;
a call after the TTL has elapsed evicts the stale entry, queries the store
afresh and re-caches the result with the new timestamp. -/
theorem c2_cache_ttl (ttl t1 t2 t3 : Int) (st : Store) (e : String) (lim : Nat)
    (c0 : QCache) (recs : List QRecord)
    (httl : 0 < ttl)
    (hs : sanitizeEntityName e ≠ "")
    (hkey : alookup ("find_entity_relations:" ++ sanitizeEntityName e ++ "|" ++ toString lim) c0 = none)
    (hst : st (ferQuery (sanitizeEntityName e) lim) = some recs)
    (h21 : t2 - t1 < ttl)
    (h31 : ttl ≤ t3 - t1) :
    (∀ now key cc r cc2, getCachedResult ttl now key cc = (some r, cc2) →
      ∃ ts, alookup key cc = some (r, ts) ∧ now - ts < ttl) ∧
    (findEntityRelations ttl t1 st e lim c0).2.2 = true ∧
    findEntityRelations ttl t2 st e lim (findEntityRelations ttl t1 st e lim c0).2.1 =
      ((findEntityRelations ttl t1 st e lim c0).1,
        (findEntityRelations ttl t1 st e lim c0).2.1, false) ∧
    (findEntityRelations ttl t3 st e lim (findEntityRelations ttl t1 st e lim c0).2.1).2.2 = true ∧
    alookup ("find_entity_relations:" ++ sanitizeEntityName e ++ "|" ++ toString lim)
      (findEntityRelations ttl t3 st e lim (findEntityRelations ttl t1 st e lim c0).2.1).2.1 =
      some (recs, t3) := by
  have hstale : ∀ now key cc r cc2, getCachedResult ttl now key cc = (some r, cc2) →
      ∃ ts, alookup key cc = some (r, ts) ∧ now - ts < ttl := by
    intro now key cc r cc2 hg
    cases halk : alookup key cc with
    | none => simp [getCachedResult, halk] at hg
    | some rv =>
      simp only [getCachedResult, halk] at hg
      by_cases hlt : now - rv.2 < ttl
      · rw [if_pos hlt] at hg
        have hr : some rv.1 = some r := congrArg Prod.fst hg
        simp only [Option.some.injEq] at hr
        exact ⟨rv.2, by rw [← hr], hlt⟩
      · rw [if_neg hlt] at hg
        exact absurd (congrArg Prod.fst hg) (by simp)
  set k := "find_entity_relations:" ++ sanitizeEntityName e ++ "|" ++ toString lim with hkdef
  have hc1 : findEntityRelations ttl t1 st e lim c0 =
      (recs.filterMap (formatRecord "未知关系"), cacheResult ttl t1 k recs c0, true) := by
    simp only [findEntityRelations, if_neg hs, executeQueryWithCache, getCachedResult,
      ← hkdef, hkey, hst]
  have hl1 : alookup k (cacheResult ttl t1 k recs c0) = some (recs, t1) := by
    rw [cacheResult_nokey hkey, if_pos httl]
    exact alookup_append_self _ (nokey_filter _ hkey)
  have hc2 : findEntityRelations ttl t2 st e lim (cacheResult ttl t1 k recs c0) =
      (recs.filterMap (formatRecord "未知关系"), cacheResult ttl t1 k recs c0, false) := by
    simp only [findEntityRelations, if_neg hs, executeQueryWithCache, getCachedResult,
      ← hkdef, hl1, if_pos h21]
  have herase : aerase k (cacheResult ttl t1 k recs c0) =
      c0.filter (fun kv => t1 - kv.2.2 < ttl) := by
    rw [cacheResult_nokey hkey, if_pos httl]
    exact aerase_append_nokey _ (nokey_filter _ hkey)
  have hc3 : findEntityRelations ttl t3 st e lim (cacheResult ttl t1 k recs c0) =
      (recs.filterMap (formatRecord "未知关系"),
        cacheResult ttl t3 k recs (c0.filter (fun kv => t1 - kv.2.2 < ttl)), true) := by
    have hnlt : ¬ (t3 - t1 < ttl) := not_lt.mpr h31
    simp only [findEntityRelations, if_neg hs, executeQueryWithCache, getCachedResult,
      ← hkdef, hl1, if_neg hnlt, herase, hst]
  have hl3 : alookup k (cacheResult ttl t3 k recs (c0.filter (fun kv => t1 - kv.2.2 < ttl))) =
      some (recs, t3) := by
    rw [cacheResult_nokey (nokey_filter _ hkey), if_pos httl]
    exact alookup_append_self _ (nokey_filter _ (nokey_filter _ hkey))
  refine ⟨hstale, ?_, ?_, ?_, ?_⟩
  · rw [hc1]
  · rw [hc1, hc2]
  · rw [hc1, hc3]
  · rw [hc1, hc3]
    exact hl3

/-- The constant one-record store used by concrete witnesses. -/
def sampleStore : Store := fun _ => some [sampleRecord]

/-- C2 witness: concrete timestamps 0, 10 and 600 with ttl 600 — the second
identical call is served from cache with no store query. -/
theorem c2_cache_ttl_witness :
    findEntityRelations 600 10 sampleStore "栈" 10
        (findEntityRelations 600 0 sampleStore "栈" 10 []).2.1 =
      ((findEntityRelations 600 0 sampleStore "栈" 10 []).1,
        (findEntityRelations 600 0 sampleStore "栈" 10 []).2.1, false) :=
  (c2_cache_ttl 600 0 10 600 sampleStore "栈" 10 [] [sampleRecord] (by decide)
    (by decide) (by decide) rfl (by decide) (by decide)).2.2.1

/-! ### Entity Resolver — src/modules/intent_recognition.py -/

/-- A candidate entity item of _postprocess_entities: text, character span
(start, stop; −1 when unknown) and optional label. -/
structure Ent where
  text : String
  start : Int
  stop : Int
  label : Option String
deriving DecidableEq

/-- Helper of strFind: first index at which pat occurs in the haystack. -/
def findSubAux (pat : List Char) : List Char → Nat → Option Nat
  | [], i => if pat.isPrefixOf ([] : List Char) then some i else none
  | c :: t, i => if pat.isPrefixOf (c :: t) then some i else findSubAux pat t (i + 1)

/-- Python str.find: index of the first occurrence, −1 when absent. -/
def strFind (hay pat : String) : Int :=
  match findSubAux pat.data hay.data 0 with
  | some i => (i : Int)
  | none => -1

/-- One augmentation step (lines 157-161): skip empty or already-present
texts, else append with the span recovered by text.find and label
NAMED_ENTITY. -/
def augStep (utterance : String) (acc : List Ent) (t : String) : List Ent :=
  if t ≠ "" ∧ acc.all (fun it => it.text ≠ t) then
    let s := strFind utterance t
    acc ++ [⟨t, s, if 0 ≤ s then s + (t.length : Int) else -1, some "NAMED_ENTITY"⟩]
  else acc

/-- The augmented-candidate loop appended after the raw candidates. -/
def addAugmented (utterance : String) (aug : List String) (items : List Ent) : List Ent :=
  aug.foldl (augStep utterance) items

/-- One step of the uniq dict build (lines 162-170): keyed by text, first
occurrence wins unless the newcomer is NAMED_ENTITY-labelled and the holder
is not, in which case it replaces in place. -/
def uniqInsert (it : Ent) : List Ent → List Ent
  | [] => [it]
  | a :: rest =>
    if a.text = it.text then
      (if it.label = some "NAMED_ENTITY" ∧ a.label ≠ some "NAMED_ENTITY" then it else a) :: rest
    else a :: uniqInsert it rest

/-- uniq stage: items folded into an insertion-ordered dict keyed by text. -/
def uniqStage (items : List Ent) : List Ent :=
  items.foldl (fun acc it => uniqInsert it acc) []

/-- Length filter (line 172): keep texts whose stripped length exceeds 1. -/
def filterStage (items : List Ent) : List Ent :=
  items.filter (fun it => 1 < (pyStrip it.text.data).length)

/-- The comparator of the stable length-descending sort (line 175). -/
def entLenGE (a b : Ent) : Prop := b.text.length ≤ a.text.length

instance : DecidableRel entLenGE := fun _ _ => Nat.decLe _ _

/-- Python sorted(key=len, reverse=True) is a stable descending sort,
realised by insertion sort with the length-descending comparator. -/
def sortStage (items : List Ent) : List Ent :=
  List.insertionSort entLenGE items

/-- The generic-word stopword set of the greedy loop (line 177). -/
def stopwords : List String := ["排序", "树", "路径", "图", "算法"]

/-- The overlap test of line 185: not (epos ≤ ts or s ≥ te). -/
def overlapB (s e ts te : Int) : Bool :=
  !(decide (e ≤ ts) || decide (te ≤ s))

/-- The greedy longest-match keep loop (lines 174-189): stopwords are
skipped; a candidate with a known span is kept only when it overlaps no
already-taken span, and its span is then taken; unknown-span candidates are
always kept without the overlap test. -/
def greedyKeep : List Ent → List (Int × Int) → List Ent
  | [], _ => []
  | it :: rest, taken =>
    if it.text ∈ stopwords then greedyKeep rest taken
    else if 0 ≤ it.start ∧ 0 ≤ it.stop then
      if taken.any (fun p => overlapB it.start it.stop p.1 p.2) then greedyKeep rest taken
      else it :: greedyKeep rest ((it.start, it.stop) :: taken)
    else it :: greedyKeep rest taken

/-- The kept candidate list of _postprocess_entities before scoring: raw
candidates with falsy text dropped, augmented candidates appended, uniq by
text, length filter, stable length-descending sort, greedy keep. -/
def postprocessKeep (utterance : String) (raw : List Ent) (aug : List String) : List Ent :=
  greedyKeep (sortStage (filterStage (uniqStage
    (addAugmented utterance aug (raw.filter (fun e => e.text ≠ "")))))) []

/-- An embedding backend: some vector, or none when the embedder is
unavailable or fails (_text_embedding). -/
abbrev Embedder := String → Option (List ℚ)

/-- Dot product of the embedding vectors. -/
def dotQ (a b : List ℚ) : ℚ :=
  (a.zip b).foldl (fun acc p => acc + p.1 * p.2) 0

/-- Sum of squares, whose square root is the Euclidean norm. -/
def sumSq (a : List ℚ) : ℚ :=
  a.foldl (fun acc x => acc + x * x) 0

/-- IntentRecognizer._cosine: 0 when either vector is missing or has zero
norm, else the normalised dot product. -/
noncomputable def cosineSim (a b : Option (List ℚ)) : ℝ :=
  match a, b with
  | some u, some v =>
    if Real.sqrt ((sumSq u : ℚ) : ℝ) = 0 ∨ Real.sqrt ((sumSq v : ℚ) : ℝ) = 0 then 0
    else ((dotQ u v : ℚ) : ℝ) /
      (Real.sqrt ((sumSq u : ℚ) : ℝ) * Real.sqrt ((sumSq v : ℚ) : ℝ))
  | _, _ => 0

/-- length_w of line 195: max(1.0, len(text) ** 0.5). -/
noncomputable def lengthWeight (n : Nat) : ℝ := max 1 (Real.sqrt n)

/-- label_w of line 196. -/
noncomputable def labelWeight (label : Option String) : ℝ :=
  if label = some "NAMED_ENTITY" then 1.2 else 1.0

/-- bonus of line 197: the fixed high-value-term set holds 时间复杂度 only. -/
noncomputable def domainBonus (t : String) : ℝ :=
  if t = "时间复杂度" then 1.5 else 1.0

/-- The per-candidate score of line 198. -/
noncomputable def scoreOf (embed : Embedder) (query : String) (it : Ent) : ℝ :=
  cosineSim (embed query) (embed it.text) * lengthWeight it.text.length *
    labelWeight it.label * domainBonus it.text

/-- The scored list of lines 191-199. -/
noncomputable def scoredStage (embed : Embedder) (query : String) (keep : List Ent) :
    List (ℝ × Ent) :=
  keep.map (fun it => (scoreOf embed query it, it))

/-- list(dict.fromkeys(result)): first-occurrence dedup (line 212). -/
def dedupFirstAux (seen : List String) : List String → List String
  | [] => []
  | x :: xs => if x ∈ seen then dedupFirstAux seen xs else x :: dedupFirstAux (x :: seen) xs

/-- First-occurrence dedup of the final name list. -/
def dedupFirst (l : List String) : List String := dedupFirstAux [] l

/-- The sort-key group of the KG-existence boost: 0 when the name has a
relation in the store, 1 otherwise. -/
def kgGroup (inKG : String → Bool) (n : String) : Nat :=
  if inKG n then 0 else 1

/-- The ascending comparator realising sorted(key=(group, -len)) of
line 211. -/
def boostLE (inKG : String → Bool) (a b : String) : Prop :=
  kgGroup inKG a < kgGroup inKG b ∨
    (kgGroup inKG a = kgGroup inKG b ∧ b.length ≤ a.length)

instance (inKG : String → Bool) : DecidableRel (boostLE inKG) := fun _ _ =>
  inferInstanceAs (Decidable (_ ∨ _))

/-- The KG-existence boost pass followed by the final first-occurrence
dedup (lines 202-213). -/
def kgBoostStage (inKG : String → Bool) (result : List String) : List String :=
  dedupFirst (List.insertionSort (boostLE inKG) result)

/-- in_kg of lines 204-208: nonempty find_entity_relations(name, 1). -/
def inKGvia (ttl now : Int) (st : Store) (c : QCache) (name : String) : Bool :=
  !(findEntityRelations ttl now st name 1 c).1.isEmpty

noncomputable instance : DecidableRel (fun a b : ℝ × Ent => b.1 ≤ a.1) := fun _ _ =>
  Real.decidableLE _ _

/-- The whole of _postprocess_entities: keep, score, stable score-descending
sort, project names, optional KG boost, dedup. -/
noncomputable def postprocessEntities (embed : Embedder) (inKG : Option (String → Bool))
    (utterance : String) (raw : List Ent) (aug : List String) : List String :=
  let keep := postprocessKeep utterance raw aug
  let scored := scoredStage embed utterance keep
  let ranked := List.insertionSort (fun a b : ℝ × Ent => b.1 ≤ a.1) scored
  let result := ranked.map (fun p => p.2.text)
  match inKG with
  | some kg => dedupFirst (List.insertionSort (boostLE kg) result)
  | none => dedupFirst result

/-! ### Lemmas for C1 -/

/-- The non-overlap property claimed of the kept list, for entries whose
span is known (start and stop different from −1). -/
def spansDisjoint (a b : Ent) : Prop :=
  a.start ≠ -1 → a.stop ≠ -1 → b.start ≠ -1 → b.stop ≠ -1 →
    (a.stop ≤ b.start ∨ b.stop ≤ a.start)

theorem greedyKeep_subset : ∀ (items : List Ent) (taken : List (Int × Int)) (a : Ent),
    a ∈ greedyKeep items taken → a ∈ items := by
  intro items
  induction items with
  | nil => intro taken a h; simp [greedyKeep] at h
  | cons it rest ih =>
    intro taken a h
    simp only [greedyKeep] at h
    split at h
    · exact List.mem_cons_of_mem _ (ih _ _ h)
    · split at h
      · split at h
        · exact List.mem_cons_of_mem _ (ih _ _ h)
        · rcases List.mem_cons.mp h with rfl | hmem
          · exact List.mem_cons_self _ _
          · exact List.mem_cons_of_mem _ (ih _ _ hmem)
      · rcases List.mem_cons.mp h with rfl | hmem
        · exact List.mem_cons_self _ _
        · exact List.mem_cons_of_mem _ (ih _ _ hmem)

theorem greedyKeep_no_overlap : ∀ (items : List Ent) (taken : List (Int × Int)) (a : Ent),
    a ∈ greedyKeep items taken → 0 ≤ a.start → 0 ≤ a.stop →
    ∀ p ∈ taken, overlapB a.start a.stop p.1 p.2 = false := by
  intro items
  induction items with
  | nil => intro taken a h; simp [greedyKeep] at h
  | cons it rest ih =>
    intro taken a h ha1 ha2 p hp
    simp only [greedyKeep] at h
    split at h
    · exact ih _ _ h ha1 ha2 p hp
    · split at h
      · split at h
        · exact ih _ _ h ha1 ha2 p hp
        · rename_i hany
          rcases List.mem_cons.mp h with rfl | hmem
          · have hfalse : taken.any (fun q => overlapB a.start a.stop q.1 q.2) = false := by
              simpa using hany
            simpa using List.any_eq_false.mp hfalse p hp
          · exact ih _ _ hmem ha1 ha2 p (List.mem_cons_of_mem _ hp)
      · rcases List.mem_cons.mp h with rfl | hmem
        · rename_i hk
          exact absurd ⟨ha1, ha2⟩ hk
        · exact ih _ _ hmem ha1 ha2 p hp

theorem greedyKeep_pairwise : ∀ (items : List Ent) (taken : List (Int × Int)),
    (∀ e ∈ items, -1 ≤ e.start ∧ -1 ≤ e.stop) →
    List.Pairwise spansDisjoint (greedyKeep items taken) := by
  intro items
  induction items with
  | nil => intro taken _; simp [greedyKeep]
  | cons it rest ih =>
    intro taken hdom
    have hdomr : ∀ e ∈ rest, -1 ≤ e.start ∧ -1 ≤ e.stop :=
      fun e he => hdom e (List.mem_cons_of_mem _ he)
    simp only [greedyKeep]
    split
    · exact ih taken hdomr
    · split
      · split
        · exact ih taken hdomr
        · refine List.Pairwise.cons ?_ (ih _ hdomr)
          intro b hb h1 h2 h3 h4
          have hbdom := hdomr b (greedyKeep_subset _ _ _ hb)
          have hov := greedyKeep_no_overlap rest _ b hb (by omega) (by omega)
            (it.start, it.stop) (List.mem_cons_self _ _)
          simp only [overlapB] at hov
          simp at hov
          omega
      · refine List.Pairwise.cons ?_ (ih taken hdomr)
        intro b hb h1 h2 h3 h4
        rename_i hk
        have hidom := hdom it (List.mem_cons_self _ _)
        exact absurd ⟨by omega, by omega⟩ hk

theorem mem_uniqInsert {it : Ent} : ∀ {l : List Ent} {a : Ent},
    a ∈ uniqInsert it l → a = it ∨ a ∈ l := by
  intro l
  induction l with
  | nil => intro a h; simp [uniqInsert] at h; exact Or.inl h
  | cons b rest ih =>
    intro a h
    simp only [uniqInsert] at h
    split at h
    · rcases List.mem_cons.mp h with rfl | hmem
      · split
        · exact Or.inl rfl
        · exact Or.inr (List.mem_cons_self _ _)
      · exact Or.inr (List.mem_cons_of_mem _ hmem)
    · rcases List.mem_cons.mp h with rfl | hmem
      · exact Or.inr (List.mem_cons_self _ _)
      · rcases ih hmem with h1 | h1
        · exact Or.inl h1
        · exact Or.inr (List.mem_cons_of_mem _ h1)

theorem mem_uniqFold : ∀ (items : List Ent) (acc : List Ent) (a : Ent),
    a ∈ items.foldl (fun acc it => uniqInsert it acc) acc → a ∈ acc ∨ a ∈ items := by
  intro items
  induction items with
  | nil => intro acc a h; exact Or.inl h
  | cons it rest ih =>
    intro acc a h
    rcases ih (uniqInsert it acc) a h with h1 | h1
    · rcases mem_uniqInsert h1 with rfl | h2
      · exact Or.inr (List.mem_cons_self _ _)
      · exact Or.inl h2
    · exact Or.inr (List.mem_cons_of_mem _ h1)

theorem strFind_ge (hay pat : String) : -1 ≤ strFind hay pat := by
  unfold strFind
  cases hf : findSubAux pat.data hay.data 0 with
  | some i => exact le_trans (by norm_num) (Int.natCast_nonneg i)
  | none => exact le_refl _

theorem addAugmented_dom (utterance : String) : ∀ (aug : List String) (items : List Ent),
    (∀ e ∈ items, -1 ≤ e.start ∧ -1 ≤ e.stop) →
    ∀ a ∈ addAugmented utterance aug items, -1 ≤ a.start ∧ -1 ≤ a.stop := by
  intro aug
  induction aug with
  | nil => intro items hdom a ha; exact hdom a ha
  | cons t ts ih =>
    intro items hdom a ha
    refine ih (augStep utterance items t) ?_ a ha
    intro e he
    unfold augStep at he
    split at he
    · rcases List.mem_append.mp he with h1 | h1
      · exact hdom e h1
      · have h2 : e = ⟨t, strFind utterance t,
            if 0 ≤ strFind utterance t then strFind utterance t + (t.length : Int) else -1,
            some "NAMED_ENTITY"⟩ := by simpa using h1
        subst h2
        refine ⟨strFind_ge _ _, ?_⟩
        by_cases hpos : 0 ≤ strFind utterance t
        · simp only [if_pos hpos]; omega
        · simp only [if_neg hpos]; omega
    · exact hdom e he

/-- C1: in the kept candidate list of the Resolver, entries with known
character spans (start and stop different from −1) pairwise do not overlap;
candidates are processed in descending text-length order and one is kept
only when its span overlaps no already-kept span, unknown spans being exempt
from the test. -/
theorem c1_span_non_overlap (utterance : String) (raw : List Ent) (aug : List String)
    (hdom : ∀ e ∈ raw, -1 ≤ e.start ∧ -1 ≤ e.stop) :
    List.Pairwise spansDisjoint (postprocessKeep utterance raw aug) := by
  apply greedyKeep_pairwise
  intro e he
  have h1 : e ∈ filterStage (uniqStage
      (addAugmented utterance aug (raw.filter (fun x => x.text ≠ "")))) :=
    (List.perm_insertionSort entLenGE _).mem_iff.mp he
  have h2 : e ∈ uniqStage (addAugmented utterance aug (raw.filter (fun x => x.text ≠ ""))) :=
    (List.mem_filter.mp h1).1
  rcases mem_uniqFold _ [] e h2 with h3 | h3
  · simp at h3
  · refine addAugmented_dom utterance aug _ ?_ e h3
    intro x hx
    exact hdom x (List.mem_filter.mp hx).1

/-- C1 witness: two concrete non-overlapping tagger candidates. -/
theorem c1_span_non_overlap_witness :
    List.Pairwise spansDisjoint (postprocessKeep "二叉树的遍历方法"
      [⟨"二叉树", 0, 3, some "Tagged"⟩, ⟨"遍历方法", 4, 8, some "Tagged"⟩] []) :=
  c1_span_non_overlap "二叉树的遍历方法"
    [⟨"二叉树", 0, 3, some "Tagged"⟩, ⟨"遍历方法", 4, 8, some "Tagged"⟩] [] (by decide)

/-! ### Lemmas for C4 -/

theorem cosineSim_none_left (b : Option (List ℚ)) : cosineSim none b = 0 := by
  cases b <;> rfl

/-- C4 (amended): when the embedder is unavailable, the similarity term of
every kept candidate is 0 and therefore the whole multiplicative score is 0
(not the positive product lengthWeight × labelWeight × domainBonus), and no
error is raised (the scoring map is total). -/
theorem c4_degraded_scoring (embed : Embedder) (query : String) (keep : List Ent)
    (hembed : ∀ s, embed s = none) :
    ∀ p ∈ scoredStage embed query keep,
      cosineSim (embed query) (embed p.2.text) = 0 ∧ p.1 = 0 := by
  intro p hp
  obtain ⟨it, _, heq⟩ := List.mem_map.mp hp
  subst heq
  have hc : cosineSim (embed query) (embed it.text) = 0 := by
    rw [hembed query]
    exact cosineSim_none_left _
  refine ⟨hc, ?_⟩
  show scoreOf embed query it = 0
  unfold scoreOf
  rw [hc, zero_mul, zero_mul, zero_mul]

/-- A concrete two-character candidate used in the C4 witness and
counterexample. -/
def entAB : Ent := ⟨"AB", 0, 2, none⟩

/-- C4 witness: with the embedder returning no vector, the concrete
candidate scores 0. -/
theorem c4_degraded_scoring_witness :
    cosineSim ((fun _ => none : Embedder) "q") ((fun _ => none : Embedder) entAB.text) = 0 ∧
    (scoreOf (fun _ => none) "q" entAB, entAB).1 = 0 :=
  c4_degraded_scoring (fun _ => none) "q" [entAB] (fun _ => rfl)
    (scoreOf (fun _ => none) "q" entAB, entAB) (List.mem_singleton.mpr rfl)

/-- C4 counterexample: the claim says the degraded score equals
lengthWeight × labelWeight × domainBonus, but the code multiplies the
similarity in, so the score is 0 while that product is at least 1. -/
theorem c4_counterexample :
    scoreOf (fun _ => none) "查询" entAB = 0 ∧
    scoreOf (fun _ => none) "查询" entAB ≠
      lengthWeight entAB.text.length * labelWeight entAB.label * domainBonus entAB.text := by
  have h0 : scoreOf (fun _ => none) "查询" entAB = 0 := by
    unfold scoreOf
    rw [cosineSim_none_left, zero_mul, zero_mul, zero_mul]
  refine ⟨h0, ?_⟩
  rw [h0]
  have h1 : (1 : ℝ) ≤ lengthWeight entAB.text.length := le_max_left _ _
  have h2 : labelWeight entAB.label = 1 := by
    simp [labelWeight, entAB]
    norm_num
  have h3 : domainBonus entAB.text = 1 := by
    simp [domainBonus, entAB]
    norm_num
  rw [h2, h3, mul_one, mul_one]
  intro heq
  linarith

/-! ### Lemmas for C5 -/

theorem dedupFirstAux_sublist : ∀ (seen l : List String),
    (dedupFirstAux seen l).Sublist l := by
  intro seen l
  induction l generalizing seen with
  | nil => simp [dedupFirstAux]
  | cons x xs ih =>
    simp only [dedupFirstAux]
    split
    · exact (ih seen).cons x
    · exact (ih (x :: seen)).cons₂ x

/-- C5 (amended): after the KG-existence boost pass, every entity with at
least one known relation in the store is ordered ahead of every entity with
none, and within each group entities are ordered by name length descending
— the pass re-sorts by length inside a group instead of preserving the
previous score-descending order. -/
theorem c5_kg_boost (inKG : String → Bool) (result : List String) :
    List.Pairwise (fun a b => (inKG b = true → inKG a = true) ∧
      (inKG a = inKG b → b.length ≤ a.length)) (kgBoostStage inKG result) := by
  haveI : IsTotal String (boostLE inKG) := ⟨by
    intro a b
    unfold boostLE
    omega⟩
  haveI : IsTrans String (boostLE inKG) := ⟨by
    intro a b c hab hbc
    unfold boostLE at hab hbc ⊢
    omega⟩
  have hs : List.Pairwise (boostLE inKG) (List.insertionSort (boostLE inKG) result) :=
    List.sorted_insertionSort (boostLE inKG) result
  have hp : List.Pairwise (boostLE inKG) (kgBoostStage inKG result) :=
    List.Pairwise.sublist (dedupFirstAux_sublist [] _) hs
  refine hp.imp ?_
  intro a b h
  cases hka : inKG a <;> cases hkb : inKG b <;>
    simp [boostLE, kgGroup, hka, hkb] at h ⊢ <;> omega

/-- C5 witness: with both names known to the store, the boost pass keeps
them ahead of nothing and orders them by descending length. -/
theorem c5_kg_boost_witness :
    List.Pairwise (fun a b => ((fun _ => true : String → Bool) b = true →
        (fun _ => true : String → Bool) a = true) ∧
      ((fun _ => true : String → Bool) a = (fun _ => true : String → Bool) b →
        b.length ≤ a.length)) (kgBoostStage (fun _ => true) ["AB", "ABC"]) :=
  c5_kg_boost (fun _ => true) ["AB", "ABC"]

/-- C5 counterexample: the claim says the boost pass preserves the previous
relative order inside each group, but with both names in the store the pass
reorders them by length, reversing the score order. -/
theorem c5_counterexample :
    kgBoostStage (fun _ => true) ["AB", "ABC"] = ["ABC", "AB"] ∧
    kgBoostStage (fun _ => true) ["AB", "ABC"] ≠ ["AB", "ABC"] := by
  constructor
  · decide
  · decide

/-! ### Context Builder — src/modules/kg_llm_enhancer.py (KGContextBuilder) -/

/-- A dynamically-typed dict value as seen by the context builder:
a string, an absent key, or a present non-string value (None included). -/
inductive DVal where
  | dstr (s : String)
  | dmissing
  | dother
deriving DecidableEq

/-- Python item.get(key, ""): the empty string for an absent key, no string
for a present non-string value. -/
def DVal.getDefStr : DVal → Option String
  | dstr s => some s
  | dmissing => some ""
  | dother => none

/-- Python item.get(key) followed by an isinstance-str check. -/
def DVal.getStr : DVal → Option String
  | dstr s => some s
  | _ => none

/-- A raw relation dict consumed by the context builder (either a formatted
store result or a caller-provided kg_result entry). -/
structure KGFact where
  entity1 : DVal
  relation : DVal
  entity2 : DVal
  entity1Attributes : List (String × DVal)
  entity2Attributes : List (String × DVal)
deriving DecidableEq

/-- Python substring test sub in hay. -/
def strContains (hay sub : String) : Bool :=
  (findSubAux sub.data hay.data 0).isSome

/-- The informative relation keywords of _score_relation. -/
def relationKeywords : List String :=
  ["包含", "属于", "类型", "定义", "相关", "常用", "适用", "实现"]

/-- KGContextBuilder._score_relation, translated clause by clause. -/
def scoreRelation (topic : String) (item : KGFact) : ℚ :=
  (match item.entity1.getDefStr with
   | some e1 => if e1 = topic then 3 else if strContains e1 topic then 2 else 0
   | none => 0) +
  (match item.entity2.getDefStr with
   | some e2 => if e2 = topic then 2 else if strContains e2 topic then 1 else 0
   | none => 0) +
  (match item.relation.getDefStr with
   | some r => if relationKeywords.any (fun k => strContains r k) then 1 else 0
   | none => 0)

/-- The relation score as worded by the spec: 3 for an exact entity1 match,
2 when the topic is a PROPER substring of entity1, analogously 2/1 for
entity2, plus 1 for an informative relation keyword. -/
def specScoreRelation (topic : String) (item : KGFact) : ℚ :=
  (match item.entity1.getDefStr with
   | some e1 => if e1 = topic then 3
       else if strContains e1 topic = true ∧ topic ≠ e1 then 2 else 0
   | none => 0) +
  (match item.entity2.getDefStr with
   | some e2 => if e2 = topic then 2
       else if strContains e2 topic = true ∧ topic ≠ e2 then 1 else 0
   | none => 0) +
  (match item.relation.getDefStr with
   | some r => if relationKeywords.any (fun k => strContains r k) then 1 else 0
   | none => 0)

/-- KGContextBuilder._truncate (applied to strings). -/
def truncateS (truncLen : Nat) (s : String) : String :=
  if truncLen < s.length then String.mk (s.data.take truncLen) else s

/-- The fixed ordered attribute fields of _merge_topic_attributes. -/
def attrFields : List String :=
  ["type", "description", "properties", "time_complexity", "space_complexity",
    "common_operations"]

/-- One field of the attribute merge: first non-empty string value wins, the
stored value is the stripped string truncated to the limit. -/
def mergeFieldStep (truncLen : Nat) (attrs : List (String × DVal))
    (out : List (String × String)) (f : String) : List (String × String) :=
  match alookup f attrs with
  | some (DVal.dstr v) =>
    if 0 < (pyStrip v.data).length ∧ alookup f out = none then
      out ++ [(f, truncateS truncLen (pyStripS v))]
    else out
  | _ => out

/-- KGContextBuilder._merge_topic_attributes. -/
def mergeTopicAttributes (truncLen : Nat) (topic : String) (rels : List KGFact) :
    List (String × String) :=
  rels.foldl (fun out it =>
    let attrs :=
      if it.entity1 = DVal.dstr topic then it.entity1Attributes
      else if it.entity2 = DVal.dstr topic then it.entity2Attributes
      else []
    attrFields.foldl (mergeFieldStep truncLen attrs) out) []

/-- A kept relation triple of the evidence context. -/
structure RelTriple where
  entity1 : String
  relation : String
  entity2 : String
deriving DecidableEq

/-- The EvidenceContext dict of build_context. -/
structure EvidenceContext where
  topic : String
  attributes : List (String × String)
  relations : List RelTriple
deriving DecidableEq

/-- The triple kept from a ranked fact when entity1, entity2 and relation
are all strings (build_context lines 64-68). -/
def strTriple (r : KGFact) : Option RelTriple :=
  match r.entity1.getStr, r.entity2.getStr, r.relation.getStr with
  | some e1, some e2, some rel => some ⟨e1, rel, e2⟩
  | _, _, _ => none

/-- The pick loop of build_context: stop once the limit is reached, keep
string-typed triples. -/
def pickRelations (limit : Nat) : List KGFact → List RelTriple
  | [] => []
  | r :: rest =>
    if limit = 0 then []
    else
      match strTriple r with
      | some t => t :: pickRelations (limit - 1) rest
      | none => pickRelations limit rest

/-- The comparator of sorted(key=score, reverse=True): a stable descending
sort realised by insertion sort on score-greater-or-equal. -/
def scoreGE (topic : String) (a b : KGFact) : Prop :=
  scoreRelation topic b ≤ scoreRelation topic a

instance (topic : String) : DecidableRel (scoreGE topic) := fun a b =>
  inferInstanceAs (Decidable (scoreRelation topic b ≤ scoreRelation topic a))

/-- KGContextBuilder.build_context applied to an in-hand fact list (every
entry of the Lean list models a dict, so the isinstance-dict filter of
line 59 keeps all of them). -/
def buildContextCore (topic : String) (rels : List KGFact)
    (relationLimit truncLen : Nat) : EvidenceContext :=
  let ranked := List.insertionSort (scoreGE topic) rels
  ⟨topic, mergeTopicAttributes truncLen topic rels, pickRelations relationLimit ranked⟩

/-- KGContextBuilder.build_context: a truthy kg_result is used as the fact
list, otherwise find_entity_relations(topic, 50) is consulted (kgq models
that store capability). -/
def buildContext (kgq : String → Nat → List KGFact) (relationLimit truncLen : Nat)
    (topic : String) (kgResult : Option (List KGFact)) : EvidenceContext :=
  match kgResult with
  | some (x :: xs) => buildContextCore topic (x :: xs) relationLimit truncLen
  | _ => buildContextCore topic (kgq topic 50) relationLimit truncLen

/-! ### Grounded Generator — src/modules/kg_llm_enhancer.py (KGLLMEnhancer) -/

/-- The LLMResponse record (usage dict flattened into token fields). -/
structure LLMResponse where
  content : String
  promptTokens : Nat
  completionTokens : Nat
  totalTokens : Nat
  model : String
  finishReason : String
  responseTime : ℚ
deriving DecidableEq

/-- The sentinel returned by _safe_llm on timeout or error. -/
def fallbackResponse : LLMResponse :=
  ⟨"", 0, 0, 0, "fallback", "error", 0⟩

/-- The observable behaviour of one backend call: completion after d
seconds, an exception after d seconds, or a hang. -/
inductive BackendOutcome where
  | completesAt (d : ℚ) (resp : LLMResponse)
  | failsAt (d : ℚ)
  | hangs
deriving DecidableEq

/-- The text-generation backend: prompt and temperature to an outcome. -/
abbrev LLMBackend := String → Option ℚ → BackendOutcome

/-- KGLLMEnhancer._safe_llm.  fut.result(timeout) yields the worker's
response when it finishes within the timeout and raises (building the
sentinel) otherwise — but the surrounding with-block then runs
ThreadPoolExecutor shutdown(wait=True), which joins the worker thread: the
function only returns once the backend call itself has finished, and on a
hanging call it never returns at all (modelled as none). -/
def safeLLM (timeout : ℚ) (b : BackendOutcome) : Option LLMResponse :=
  match b with
  | .completesAt d r => some (if d ≤ timeout then r else fallbackResponse)
  | .failsAt _ => some fallbackResponse
  | .hangs => none

/-- Wall-clock time until _safe_llm returns: the shutdown(wait=True) join
waits for the worker, so the wait is the full backend duration regardless
of the timeout, and no finite return time exists on a hang. -/
def safeLLMElapsed (b : BackendOutcome) : Option ℚ :=
  match b with
  | .completesAt d _ => some d
  | .failsAt d => some d
  | .hangs => none

/-- Minimal JSON string escaping (quote and backslash; control-character
escapes elided — the prompt text is opaque to every claim). -/
def jsonEscape (s : String) : String :=
  String.mk (s.data.foldr (fun c acc =>
    if c = quoteC ∨ c = '\\' then '\\' :: c :: acc else c :: acc) [])

/-- A JSON string literal. -/
def jsonStr (s : String) : String :=
  String.mk [quoteC] ++ jsonEscape s ++ String.mk [quoteC]

/-- json.dumps of the attributes dict (ensure_ascii=False). -/
def jsonOfAttrs (attrs : List (String × String)) : String :=
  "\x7b" ++ String.intercalate ", "
    (attrs.map (fun kv => jsonStr kv.1 ++ ": " ++ jsonStr kv.2)) ++ "\x7d"

/-- json.dumps of one kept relation triple. -/
def jsonOfTriple (t : RelTriple) : String :=
  "\x7b" ++ jsonStr "entity1" ++ ": " ++ jsonStr t.entity1 ++ ", " ++
    jsonStr "relation" ++ ": " ++ jsonStr t.relation ++ ", " ++
    jsonStr "entity2" ++ ": " ++ jsonStr t.entity2 ++ "\x7d"

/-- json.dumps of the whole evidence context. -/
def jsonOfCtx (ctx : EvidenceContext) : String :=
  "\x7b" ++ jsonStr "topic" ++ ": " ++ jsonStr ctx.topic ++ ", " ++
    jsonStr "attributes" ++ ": " ++ jsonOfAttrs ctx.attributes ++ ", " ++
    jsonStr "relations" ++ ": [" ++
    String.intercalate ", " (ctx.relations.map jsonOfTriple) ++ "]" ++ "\x7d"

/-- KGLLMEnhancer._prompt. -/
def coursePrompt : String :=
  "仅依据上方JSON背景生成中文数据结构课程内容，严格遵循：\n" ++
  "1) 不得使用JSON外的知识；\n2) 术语必须使用JSON attributes原文；\n" ++
  "3) 结构：课程简介；学习目标（3-6条）；核心概念与定义；典型操作或相关算法；时间与空间复杂度；示例与练习（≥2个，含要点）；参考资料与进一步阅读；\n" ++
  "4) 学术化语体与准确术语；\n5) 末尾添加证据溯源小节（引用attributes与relations）。"

/-- Python enumerate(relations, 1). -/
def myEnumFrom (n : Nat) : List RelTriple → List (Nat × RelTriple)
  | [] => []
  | x :: xs => (n, x) :: myEnumFrom (n + 1) xs

/-- The evidence-trail lines of generate_with_kg: the header, one line per
attribute key with the value truncated to 100 characters, one numbered line
per kept relation holding the triple. -/
def evidLines (ctx : EvidenceContext) : List String :=
  "证据溯源：" ::
    (ctx.attributes.map (fun kv =>
        "属性-" ++ kv.1 ++ "：" ++ String.mk (kv.2.data.take 100)) ++
      (myEnumFrom 1 ctx.relations).map (fun ir =>
        "关系" ++ toString ir.1 ++ "：" ++ ir.2.entity1 ++ " " ++ ir.2.relation ++
          " " ++ ir.2.entity2))

/-- The evidence trail appended by generate_with_kg. -/
def trailerOf (ctx : EvidenceContext) : String :=
  String.intercalate "\n" (evidLines ctx)

/-- The prompt assembled by generate_with_kg from the built context. -/
def genPrompt (kgq : String → Nat → List KGFact) (relationLimit truncLen : Nat)
    (topic : String) : String :=
  "背景知识（权威）：\n" ++ jsonOfCtx (buildContext kgq relationLimit truncLen topic none) ++
    "\n\n" ++ coursePrompt

/-- KGLLMEnhancer.generate_with_kg: none when the guarded backend call
never returns (hanging worker joined by the executor shutdown). -/
def generateWithKG (llm : LLMBackend) (kgq : String → Nat → List KGFact)
    (timeout temperature : ℚ) (relationLimit truncLen : Nat) (topic : String) :
    Option String :=
  let ctx := buildContext kgq relationLimit truncLen topic none
  match safeLLM timeout (llm (genPrompt kgq relationLimit truncLen topic) (some temperature)) with
  | some resp => some (pyStripS resp.content ++ "\n\n" ++ trailerOf ctx)
  | none => none

/-- The entity names collected from a caller-provided kg_result (strings
only, entity1 then entity2 per item). -/
def collectNames (kgr : List KGFact) : List String :=
  kgr.foldr (fun item acc =>
    (match item.entity1.getStr with | some s => [s] | none => []) ++
      (match item.entity2.getStr with | some s => [s] | none => []) ++ acc) []

/-- Counter(names).most_common(1): the highest count, earliest first
occurrence winning ties. -/
def mostCommon (names : List String) : Option String :=
  match dedupFirst names with
  | [] => none
  | x :: xs => some (xs.foldl (fun best n =>
      if names.count best < names.count n then n else best) x)

/-- Python falsiness of the optional topic argument. -/
def topicFalsy : Option String → Bool
  | none => true
  | some t => t == ""

/-- Python topic or default. -/
def orDefaultTopic (o : Option String) (d : String) : String :=
  match o with
  | some t => if t = "" then d else t
  | none => d

/-- KGLLMEnhancer.answer_with_kg (answerWithEvidence): infer a topic from a
provided kg_result when needed, build the bounded context, call the backend
under the timeout, return the stripped content — none when the guarded
backend call never returns. -/
def answerWithKG (llm : LLMBackend) (kgq : String → Nat → List KGFact)
    (timeout temperature : ℚ) (relationLimit truncLen : Nat)
    (userQuery : String) (topic : Option String) (kgResult : Option (List KGFact)) :
    Option String :=
  let ctx :=
    match kgResult with
    | some (x :: xs) =>
      let kgr := x :: xs
      let topic2 :=
        if topicFalsy topic then
          match mostCommon (collectNames kgr) with
          | some t => some t
          | none => topic
        else topic
      buildContextCore (orDefaultTopic topic2 "相关实体") kgr relationLimit truncLen
    | _ =>
      match topic with
      | some t =>
        if t = "" then (⟨"", [], []⟩ : EvidenceContext)
        else buildContext kgq relationLimit truncLen t none
      | none => (⟨"", [], []⟩ : EvidenceContext)
  let prompt := "用户问题：" ++ userQuery ++ "\n\n权威背景（JSON）：\n" ++ jsonOfCtx ctx ++
    "\n\n请仅依据JSON中的信息作答；若信息不足，请明确说明并给出一般性解释。要求用专业且易懂的中文，合理引用属性与关系。"
  match safeLLM timeout (llm prompt (some temperature)) with
  | some resp => some (pyStripS resp.content)
  | none => none

/-! ### C7: context boundedness -/

theorem pickRelations_length (limit : Nat) : ∀ l : List KGFact,
    (pickRelations limit l).length ≤ limit := by
  induction limit using Nat.strong_induction_on with
  | _ limit ih =>
    intro l
    induction l with
    | nil => simp [pickRelations]
    | cons r rest ihl =>
      simp only [pickRelations]
      by_cases h0 : limit = 0
      · simp [h0]
      · rw [if_neg h0]
        cases strTriple r with
        | some t =>
          simp only [List.length_cons]
          have := ih (limit - 1) (by omega) rest
          omega
        | none => exact ihl

theorem truncateS_length (n : Nat) (s : String) : (truncateS n s).length ≤ n := by
  unfold truncateS
  by_cases h : n < s.length
  · rw [if_pos h]
    show (s.data.take n).length ≤ n
    simp [List.length_take]
  · rw [if_neg h]
    omega

theorem mem_mergeFieldStep {truncLen : Nat} {attrs : List (String × DVal)}
    {out : List (String × String)} {f : String} {kv2 : String × String}
    (h : kv2 ∈ mergeFieldStep truncLen attrs out f) :
    kv2 ∈ out ∨ ∃ v, kv2 = (f, truncateS truncLen (pyStripS v)) := by
  cases halk : alookup f attrs with
  | none =>
    simp only [mergeFieldStep, halk] at h
    exact Or.inl h
  | some dv =>
    cases dv with
    | dstr v =>
      simp only [mergeFieldStep, halk] at h
      split at h
      · rcases List.mem_append.mp h with h1 | h1
        · exact Or.inl h1
        · exact Or.inr ⟨v, List.mem_singleton.mp h1⟩
      · exact Or.inl h
    | dmissing =>
      simp only [mergeFieldStep, halk] at h
      exact Or.inl h
    | dother =>
      simp only [mergeFieldStep, halk] at h
      exact Or.inl h

theorem mergeFields_bounded (truncLen : Nat) (attrs : List (String × DVal)) :
    ∀ (fs : List String) (out : List (String × String)),
    (∀ kv ∈ out, kv.2.length ≤ truncLen) →
    ∀ kv ∈ fs.foldl (mergeFieldStep truncLen attrs) out, kv.2.length ≤ truncLen := by
  intro fs
  induction fs with
  | nil => intro out hout kv hkv; exact hout kv hkv
  | cons f fs ih =>
    intro out hout kv hkv
    refine ih _ ?_ kv hkv
    intro kv2 hkv2
    rcases mem_mergeFieldStep hkv2 with h1 | ⟨v, rfl⟩
    · exact hout kv2 h1
    · exact truncateS_length _ _

theorem mergeTopicAttributes_bounded (truncLen : Nat) (topic : String) :
    ∀ (rels : List KGFact) (out : List (String × String)),
    (∀ kv ∈ out, kv.2.length ≤ truncLen) →
    ∀ kv ∈ rels.foldl (fun out it =>
        let attrs :=
          if it.entity1 = DVal.dstr topic then it.entity1Attributes
          else if it.entity2 = DVal.dstr topic then it.entity2Attributes
          else []
        attrFields.foldl (mergeFieldStep truncLen attrs) out) out,
      kv.2.length ≤ truncLen := by
  intro rels
  induction rels with
  | nil => intro out hout kv hkv; exact hout kv hkv
  | cons it rest ih =>
    intro out hout kv hkv
    exact ih _ (mergeFields_bounded truncLen _ attrFields out hout) kv hkv

/-- C7: for every topic and every input fact list (given directly or
fetched from the store capability), the built EvidenceContext keeps at most
relationLimit relations and every attribute value has length at most the
configured truncation limit. -/
theorem c7_context_bounded (kgq : String → Nat → List KGFact)
    (relationLimit truncLen : Nat) (topic : String) (kgResult : Option (List KGFact)) :
    (buildContext kgq relationLimit truncLen topic kgResult).relations.length ≤ relationLimit ∧
    ∀ kv ∈ (buildContext kgq relationLimit truncLen topic kgResult).attributes,
      kv.2.length ≤ truncLen := by
  have hcore : ∀ rels : List KGFact,
      (buildContextCore topic rels relationLimit truncLen).relations.length ≤ relationLimit ∧
      ∀ kv ∈ (buildContextCore topic rels relationLimit truncLen).attributes,
        kv.2.length ≤ truncLen := by
    intro rels
    constructor
    · exact pickRelations_length relationLimit _
    · intro kv hkv
      exact mergeTopicAttributes_bounded truncLen topic rels [] (by simp) kv hkv
  unfold buildContext
  cases kgResult with
  | none => exact hcore _
  | some l =>
    cases l with
    | nil => exact hcore _
    | cons x xs => exact hcore _

/-- The 栈-syno-LIFO fact used by concrete witnesses, with one attribute. -/
def stackRel : KGFact :=
  ⟨DVal.dstr "栈", DVal.dstr "syno", DVal.dstr "LIFO",
    [("description", DVal.dstr "后进先出的线性表")], []⟩

/-- C7 witness: the concrete context of the 栈 scenario is bounded. -/
theorem c7_context_bounded_witness :
    (buildContext (fun _ _ => []) 8 300 "栈" (some [stackRel])).relations.length ≤ 8 ∧
    ∀ kv ∈ (buildContext (fun _ _ => []) 8 300 "栈" (some [stackRel])).attributes,
      kv.2.length ≤ 300 :=
  c7_context_bounded (fun _ _ => []) 8 300 "栈" (some [stackRel])

/-! ### C8: relation scoring and selection -/

theorem pickRelations_eq_take_filterMap : ∀ (l : List KGFact) (limit : Nat),
    pickRelations limit l = (l.filterMap strTriple).take limit := by
  intro l
  induction l with
  | nil => intro limit; simp [pickRelations]
  | cons r rest ih =>
    intro limit
    simp only [pickRelations]
    by_cases h0 : limit = 0
    · simp [h0]
    · rw [if_neg h0]
      obtain ⟨m, rfl⟩ : ∃ m, limit = m + 1 := ⟨limit - 1, by omega⟩
      cases ht : strTriple r with
      | some t =>
        show t :: pickRelations m rest = _
        simp only [List.filterMap_cons, ht, List.take_succ_cons]
        rw [ih m]
      | none =>
        show pickRelations (m + 1) rest = _
        simp only [List.filterMap_cons, ht]
        exact ih (m + 1)

theorem scoreRelation_eq_spec (topic : String) (f : KGFact) :
    scoreRelation topic f = specScoreRelation topic f := by
  have h1 : (match f.entity1.getDefStr with
      | some e1 => if e1 = topic then (3 : ℚ) else if strContains e1 topic then 2 else 0
      | none => 0) =
      (match f.entity1.getDefStr with
      | some e1 => if e1 = topic then (3 : ℚ)
          else if strContains e1 topic = true ∧ topic ≠ e1 then 2 else 0
      | none => 0) := by
    cases f.entity1.getDefStr with
    | none => rfl
    | some e1 =>
      by_cases he : e1 = topic
      · simp [he]
      · have he2 : topic ≠ e1 := fun h => he h.symm
        simp [he, he2]
  have h2 : (match f.entity2.getDefStr with
      | some e2 => if e2 = topic then (2 : ℚ) else if strContains e2 topic then 1 else 0
      | none => 0) =
      (match f.entity2.getDefStr with
      | some e2 => if e2 = topic then (2 : ℚ)
          else if strContains e2 topic = true ∧ topic ≠ e2 then 1 else 0
      | none => 0) := by
    cases f.entity2.getDefStr with
    | none => rfl
    | some e2 =>
      by_cases he : e2 = topic
      · simp [he]
      · have he2 : topic ≠ e2 := fun h => he h.symm
        simp [he, he2]
  unfold scoreRelation specScoreRelation
  exact congrArg₂ (fun x y => x + y) (congrArg₂ (fun x y => x + y) h1 h2) rfl

/-- C8 (amended): the relation score is exactly the spec formula with
proper-substring semantics; the kept relations are the first relationLimit
entries, in stable score-descending order, whose entity1, relation and
entity2 are all STRINGS (possibly empty — the code checks only the type,
not non-emptiness). -/
theorem c8_relation_selection (topic : String) (rels : List KGFact)
    (relationLimit truncLen : Nat) :
    (∀ f, scoreRelation topic f = specScoreRelation topic f) ∧
    (buildContextCore topic rels relationLimit truncLen).relations =
      ((List.insertionSort (scoreGE topic) rels).filterMap strTriple).take relationLimit ∧
    List.Pairwise (fun a b => scoreRelation topic b ≤ scoreRelation topic a)
      (List.insertionSort (scoreGE topic) rels) := by
  haveI : IsTotal KGFact (scoreGE topic) := ⟨fun a b => le_total _ _⟩
  haveI : IsTrans KGFact (scoreGE topic) := ⟨fun _ _ _ h1 h2 => le_trans h2 h1⟩
  refine ⟨fun f => scoreRelation_eq_spec topic f, ?_, ?_⟩
  · show pickRelations relationLimit (List.insertionSort (scoreGE topic) rels) = _
    exact pickRelations_eq_take_filterMap _ _
  · exact List.sorted_insertionSort (scoreGE topic) rels

/-- A fact whose endpoints and relation are the empty string. -/
def emptyFact : KGFact :=
  ⟨DVal.dstr "", DVal.dstr "", DVal.dstr "", [], []⟩

/-- C8 counterexample: a fact whose entity1, relation and entity2 are empty
strings is still kept, so the claim that kept facts all have non-empty
components is false on the code. -/
theorem c8_counterexample :
    (buildContextCore "X" [emptyFact] 8 300).relations = [⟨"", "", ""⟩] ∧
    ¬ (∀ t ∈ (buildContextCore "X" [emptyFact] 8 300).relations, t.entity1 ≠ "") := by
  constructor
  · decide
  · intro h
    exact (h ⟨"", "", ""⟩ (by decide)) rfl

/-! ### C3: timeout fallback (refuted by the code: the executor join blocks) -/

/-- A successful concrete backend response for the 栈 scenario. -/
def sampleResponse : LLMResponse :=
  ⟨"栈是一种后进先出结构", 1, 1, 2, "m", "stop", 1⟩

/-- C3 (code bug): the claim — answer_with_kg returns the sentinel fallback
within timeout + ε, never blocking the caller — fails on the code: exiting
the with-block of _safe_llm runs ThreadPoolExecutor shutdown(wait=True),
joining the worker.  On a hanging backend call answer_with_kg therefore
never returns (none in the model, for every query, topic and kg_result),
_safe_llm itself never returns, and a call completing after the deadline
unblocks the caller only after the full backend duration d, not within
timeout + ε, even though the value eventually returned is the sentinel
(empty content, finish_reason error). -/
theorem c3_timeout_blocks :
    (∀ (kgq : String → Nat → List KGFact) (timeout temperature : ℚ)
        (relationLimit truncLen : Nat) (userQuery : String) (topic : Option String)
        (kgResult : Option (List KGFact)),
      answerWithKG (fun _ _ => BackendOutcome.hangs) kgq timeout temperature
        relationLimit truncLen userQuery topic kgResult = none) ∧
    (∀ timeout : ℚ, safeLLM timeout BackendOutcome.hangs = none) ∧
    safeLLMElapsed BackendOutcome.hangs = none ∧
    (∀ (d : ℚ) (r : LLMResponse), safeLLMElapsed (BackendOutcome.completesAt d r) = some d) ∧
    safeLLM 25 (BackendOutcome.completesAt 26 sampleResponse) = some fallbackResponse ∧
    fallbackResponse.content = "" ∧ fallbackResponse.finishReason = "error" := by
  refine ⟨?_, fun _ => rfl, rfl, fun _ _ => rfl, by decide, rfl, rfl⟩
  intro kgq timeout temperature relationLimit truncLen userQuery topic kgResult
  rfl

/-! ### C9: the evidence trail -/

/-- C9: the generate_with_kg output ends with the evidence-trail section,
whose lines are the header, one line per attribute key with the value
truncated to 100 characters, and one numbered line per kept relation
holding the entity1 relation entity2 triple; in the spec example scenario
the trailer contains 栈 syno LIFO. -/
theorem c9_evidence_trail (llm : LLMBackend) (kgq : String → Nat → List KGFact)
    (timeout temperature : ℚ) (relationLimit truncLen : Nat) (topic : String)
    (d : ℚ) (r : LLMResponse)
    (hllm : llm (genPrompt kgq relationLimit truncLen topic) (some temperature) =
      BackendOutcome.completesAt d r)
    (hd : d ≤ timeout) :
    generateWithKG llm kgq timeout temperature relationLimit truncLen topic =
      some (pyStripS r.content ++ "\n\n" ++
        trailerOf (buildContext kgq relationLimit truncLen topic none)) ∧
    (∀ ctx : EvidenceContext, evidLines ctx =
      "证据溯源：" ::
        (ctx.attributes.map (fun kv =>
            "属性-" ++ kv.1 ++ "：" ++ String.mk (kv.2.data.take 100)) ++
          (myEnumFrom 1 ctx.relations).map (fun ir =>
            "关系" ++ toString ir.1 ++ "：" ++ ir.2.entity1 ++ " " ++ ir.2.relation ++
              " " ++ ir.2.entity2))) ∧
    Option.map (fun s => strContains s "栈 syno LIFO")
      (generateWithKG (fun _ _ => BackendOutcome.completesAt 1 sampleResponse)
        (fun _ _ => [stackRel]) 25 (1 / 5) 8 300 "栈") = some true := by
  refine ⟨?_, fun ctx => rfl, by decide⟩
  simp only [generateWithKG, hllm, safeLLM, if_pos hd]

/-- C9 witness: the concrete 栈 scenario with a backend completing within
the timeout — the generated output is the stripped content followed by the
evidence trailer. -/
theorem c9_evidence_trail_witness :
    generateWithKG (fun _ _ => BackendOutcome.completesAt 1 sampleResponse)
      (fun _ _ => [stackRel]) 25 (1 / 5) 8 300 "栈" =
      some (pyStripS sampleResponse.content ++ "\n\n" ++
        trailerOf (buildContext (fun _ _ => [stackRel]) 8 300 "栈" none)) :=
  (c9_evidence_trail (fun _ _ => BackendOutcome.completesAt 1 sampleResponse)
    (fun _ _ => [stackRel]) 25 (1 / 5) 8 300 "栈" 1 sampleResponse rfl (by norm_num)).1

end Spec2Proof
